import Mathlib

/-!
Shallow embedding of `src/examples/gluesql.rs`: a pgwire front-end for the
embedded GlueSQL engine.  The heart of the file is `GluesqlProcessor::do_query`,
which submits the query text to a worker over a channel, receives a
`Result<Vec<Payload>>`, and translates each `Payload` into a pgwire `Response`.
The translation switches on the payload variant and, for `Select` payloads,
on each cell's value kind, calling pgwire's
`encode_field_with_type_and_format` with an explicit wire type and text format.
Unsupported value kinds and payload variants hit `unimplemented!()`, a panic.

The pgwire library itself is external to the repository; its per-field
encoding primitive is modelled as an abstract parameter `prim` that records
the (value, wire type, format) triple passed to it and may fail with a
`PgWireError`.  Panics are modelled as a third outcome `Res.abort`, distinct
from reported errors `Res.err`.
-/

namespace Gluesql

/-- Opaque carrier for the engine's 64-bit IEEE float values (`f64` bit
pattern); the encoder only passes such a value through to pgwire. -/
structure F64Bits where
  bits : Nat
  deriving DecidableEq, Repr

/-- Opaque carrier for the engine's date values (`NaiveDate`). -/
structure DateVal where
  days : Int
  deriving DecidableEq, Repr

/-- Opaque carrier for the engine's time-of-day values (`NaiveTime`). -/
structure TimeVal where
  nanos : Nat
  deriving DecidableEq, Repr

/-- Opaque carrier for the engine's timestamp values (`NaiveDateTime`). -/
structure TimestampVal where
  micros : Int
  deriving DecidableEq, Repr

/-- The engine's typed cell value (`gluesql::Value`), restricted to the
variants the translation in `do_query` matches on; every remaining
engine-defined variant (Null, Decimal, I128, ...) is collapsed into
`Other`, carrying the variant's name.  Machine integers are carried as
unbounded `Int`/`Nat`; the Rust ranges (`i8` in [-128,127], `u8` in [0,255])
appear as hypotheses where they matter. -/
inductive Value where
  | Bool (b : Bool)
  | I8 (v : Int)
  | I16 (v : Int)
  | I32 (v : Int)
  | I64 (v : Int)
  | U8 (v : Nat)
  | F64 (v : F64Bits)
  | Str (s : String)
  | Bytea (bs : List Nat)
  | Date (d : DateVal)
  | Time (t : TimeVal)
  | Timestamp (ts : TimestampVal)
  | Other (variant : String)
  deriving DecidableEq, Repr

/-- The engine's result for one executed statement (`gluesql::Payload`),
restricted to the variants `do_query` matches on; every other variant
(ShowColumns, ShowVariable, transaction payloads, ...) is collapsed into
`Other`, carrying the variant's name. -/
inductive Payload where
  | Select (labels : List String) (rows : List (List Value))
  | Insert (rows : Nat)
  | Delete (rows : Nat)
  | Update (rows : Nat)
  | Create
  | AlterTable
  | DropTable
  | CreateIndex
  | DropIndex
  | Other (variant : String)
  deriving DecidableEq, Repr

/-- The pgwire wire types the translation mentions (`pgwire::api::Type`). -/
inductive PgType where
  | BOOL
  | CHAR
  | INT2
  | INT4
  | INT8
  | FLOAT8
  | VARCHAR
  | BYTEA
  | DATE
  | TIME
  | TIMESTAMP
  | UNKNOWN
  deriving DecidableEq, Repr

/-- pgwire's `FieldFormat`. -/
inductive FieldFormat where
  | Text
  | Binary
  deriving DecidableEq, Repr

/-- The Rust value actually handed to pgwire's encoding primitive: for most
kinds the cell value itself, for `U8` the value reinterpreted as `i8`. -/
inductive EncVal where
  | bool (b : Bool)
  | i8 (v : Int)
  | i16 (v : Int)
  | i32 (v : Int)
  | i64 (v : Int)
  | f64 (v : F64Bits)
  | str (s : String)
  | bytea (bs : List Nat)
  | date (d : DateVal)
  | time (t : TimeVal)
  | timestamp (ts : TimestampVal)
  deriving DecidableEq, Repr

/-- One call to `encode_field_with_type_and_format`: the value passed, the
wire type passed, and the format passed.  A successfully encoded cell of a
data row is identified with the call that produced it. -/
structure EncodedField where
  val : EncVal
  ty : PgType
  fmt : FieldFormat
  deriving DecidableEq, Repr

/-- pgwire's error type, restricted to the variant this file constructs:
`PgWireError::ApiError(Box<dyn Error>)`, carrying the boxed error's text. -/
inductive PgWireError where
  | ApiError (msg : String)
  deriving DecidableEq, Repr

/-- pgwire's `FieldInfo` column descriptor as constructed by `do_query`:
`FieldInfo::new(name, table_id, column_id, datatype, format)`. -/
structure FieldInfo where
  name : String
  table_id : Option Nat
  column_id : Option Nat
  datatype : PgType
  format : FieldFormat
  deriving DecidableEq, Repr

/-- pgwire's execution tag (`Tag`): a command string plus an optional
affected-row count. -/
structure Tag where
  command : String
  rows : Option Nat
  deriving DecidableEq, Repr

/-- `Tag::new_for_execution(command, rows)`. -/
def Tag.new_for_execution (command : String) (rows : Option Nat) : Tag :=
  ⟨command, rows⟩

/-- A pgwire `Response` as constructed by `do_query`: either a row-set
response (`Response::Query(QueryResponse::new(fields, rows))`, with each row
the list of its encoded cells) or an execution acknowledgement
(`Response::Execution(tag)`). -/
inductive Response where
  | Query (fields : List FieldInfo) (rows : List (List EncodedField))
  | Execution (tag : Tag)
  deriving DecidableEq, Repr

/-- Outcome of a Rust code path that can return normally, return an error
through `?`, or panic (`unimplemented!()`): `abort` is the panic, carrying
the panic message, and is distinct from the reported error `err`. -/
inductive Res (α : Type) where
  | ok (a : α)
  | err (e : PgWireError)
  | abort (msg : String)
  deriving DecidableEq, Repr

/-- Sequencing of fallible steps: `?`-propagation of errors and unwinding of
panics. -/
def Res.bind (r : Res α) (f : α → Res β) : Res β :=
  match r with
  | .ok a => f a
  | .err e => .err e
  | .abort m => .abort m

/-- Abstraction of pgwire's `encode_field_with_type_and_format`: external
code that receives the call and either succeeds (appending one cell to the
data row) or fails with a `PgWireError`. -/
def Prim : Type := EncodedField → Option PgWireError

/-- Rust's `u8 as i8` cast: two's-complement reinterpretation of the low
8 bits. -/
def u8_as_i8 (v : Nat) : Int :=
  ((v : Int) + 128) % 256 - 128

/-- The cell-level dispatch of `do_query`'s row loop (lines 58–130 of
`gluesql.rs`): for each supported value kind, the (value, wire type, format)
triple passed to `encode_field_with_type_and_format`; `none` for the
`_ => unimplemented!()` arm. -/
def encode_cell : Value → Option EncodedField
  | .Bool b => some ⟨.bool b, .BOOL, .Text⟩
  | .I8 v => some ⟨.i8 v, .CHAR, .Text⟩
  | .I16 v => some ⟨.i16 v, .INT2, .Text⟩
  | .I32 v => some ⟨.i32 v, .INT4, .Text⟩
  | .I64 v => some ⟨.i64 v, .INT8, .Text⟩
  | .U8 v => some ⟨.i8 (u8_as_i8 v), .CHAR, .Text⟩
  | .F64 v => some ⟨.f64 v, .FLOAT8, .Text⟩
  | .Str s => some ⟨.str s, .VARCHAR, .Text⟩
  | .Bytea bs => some ⟨.bytea bs, .BYTEA, .Text⟩
  | .Date d => some ⟨.date d, .DATE, .Text⟩
  | .Time t => some ⟨.time t, .TIME, .Text⟩
  | .Timestamp ts => some ⟨.timestamp ts, .TIMESTAMP, .Text⟩
  | .Other _ => none

/-- A value kind is supported exactly when the cell dispatch has an arm
for it. -/
def Value.supported (v : Value) :=
  (encode_cell v).isSome

/-- Encoding one cell: dispatch on the value kind (panicking on the
unsupported ones), then invoke the external primitive, propagating its
error through `?`. -/
def encode_cell_checked (prim : Prim) (v : Value) : Res EncodedField :=
  match encode_cell v with
  | none => .abort "unimplemented"
  | some c =>
    match prim c with
    | some e => .err e
    | none => .ok c

/-- The inner loop `for field in row.iter()` followed by `encoder.finish()`:
encode the cells left to right, the resulting data row being the list of
encoded cells. -/
def encodeRow (prim : Prim) : List Value → Res (List EncodedField)
  | [] => .ok []
  | v :: rest =>
    (encode_cell_checked prim v).bind fun c =>
      (encodeRow prim rest).bind fun cs => .ok (c :: cs)

/-- The outer loop `for row in rows`: encode the rows in order, collecting
the finished data rows. -/
def encodeRows (prim : Prim) : List (List Value) → Res (List (List EncodedField))
  | [] => .ok []
  | r :: rest =>
    (encodeRow prim r).bind fun cs =>
      (encodeRows prim rest).bind fun rss => .ok (cs :: rss)

/-- The column descriptors built from a `Select` payload's labels
(lines 40–52): one `FieldInfo::new(label, None, None, Type::UNKNOWN,
FieldFormat::Text)` per label, in label order. -/
def fieldInfos (labels : List String) : List FieldInfo :=
  labels.map fun label => ⟨label, none, none, .UNKNOWN, .Text⟩

/-- Translation of one `Payload` into one `Response` (the body of the
`match payload` in `do_query`, lines 38–174). -/
def translatePayload (prim : Prim) : Payload → Res Response
  | .Select labels rows =>
    (encodeRows prim rows).bind fun rss =>
      .ok (.Query (fieldInfos labels) rss)
  | .Insert rows => .ok (.Execution (Tag.new_for_execution "Insert" (some rows)))
  | .Delete rows => .ok (.Execution (Tag.new_for_execution "Delete" (some rows)))
  | .Update rows => .ok (.Execution (Tag.new_for_execution "Update" (some rows)))
  | .Create => .ok (.Execution (Tag.new_for_execution "Create" none))
  | .AlterTable => .ok (.Execution (Tag.new_for_execution "Alter Table" none))
  | .DropTable => .ok (.Execution (Tag.new_for_execution "Drop Table" none))
  | .CreateIndex => .ok (.Execution (Tag.new_for_execution "Create Index" none))
  | .DropIndex => .ok (.Execution (Tag.new_for_execution "Drop Index" none))
  | .Other _ => .abort "unimplemented"

/-- `payloads.into_iter().map(translate).collect::<Result<Vec<_>, _>>()`:
translate the payloads in order, stopping at the first error (and unwinding
at a panic). -/
def translateAll (prim : Prim) : List Payload → Res (List Response)
  | [] => .ok []
  | p :: rest =>
    (translatePayload prim p).bind fun r =>
      (translateAll prim rest).bind fun rs => .ok (r :: rs)

/-- What one query cycle observes from the bridge: the `mpsc` send fails
(`SendError`), the `oneshot` receive fails (`RecvError`), or the engine's
`Result<Vec<Payload>>` is delivered (its error being a `gluesql` error,
carried here by its text). -/
inductive BridgeOutcome where
  | sendFail (msg : String)
  | recvFail (msg : String)
  | engine (r : Except String (List Payload))
  deriving Repr

/-- `GluesqlProcessor::do_query` (lines 22–177), as a function of what the
bridge did: a send failure, receive failure, or engine error each becomes
`PgWireError::ApiError` wrapping the underlying error; on engine success the
payloads are translated into responses. -/
def do_query (prim : Prim) : BridgeOutcome → Res (List Response)
  | .sendFail m => .err (.ApiError m)
  | .recvFail m => .err (.ApiError m)
  | .engine (.error m) => .err (.ApiError m)
  | .engine (.ok payloads) => translateAll prim payloads

/-- A payload is supported when translating it cannot hit
`unimplemented!()`: every cell of a `Select` has a supported kind, and the
variant is one of the nine the match enumerates. -/
def Payload.supported : Payload → Bool
  | .Select _ rows => rows.all fun r => r.all Value.supported
  | .Other _ => false
  | _ => true

/-- Modelled from the spec: the explicit wire-type table of §4.4
(boolean→BOOL, 8-bit signed→CHAR, 16-bit signed→INT2, 32-bit signed→INT4,
64-bit signed→INT8, unsigned byte→CHAR, 64-bit float→FLOAT8,
string→VARCHAR, binary blob→BYTEA, date→DATE, time→TIME,
timestamp→TIMESTAMP); kinds outside the table have no entry.  To be
compared against `encode_cell`, which is translated from the source. -/
def specCellType : Value → Option PgType
  | .Bool _ => some .BOOL
  | .I8 _ => some .CHAR
  | .I16 _ => some .INT2
  | .I32 _ => some .INT4
  | .I64 _ => some .INT8
  | .U8 _ => some .CHAR
  | .F64 _ => some .FLOAT8
  | .Str _ => some .VARCHAR
  | .Bytea _ => some .BYTEA
  | .Date _ => some .DATE
  | .Time _ => some .TIME
  | .Timestamp _ => some .TIMESTAMP
  | .Other _ => none

/-- Inverting `Res.bind` on a successful outcome: the first step succeeded
and the continuation succeeded on its value. -/
theorem Res.bind_eq_ok {α β : Type} {r : Res α} {f : α → Res β} {b : β}
    (h : r.bind f = .ok b) : ∃ a, r = .ok a ∧ f a = .ok b := by
  cases r with
  | ok a => exact ⟨a, rfl, h⟩
  | err e => simp [Res.bind] at h
  | abort m => simp [Res.bind] at h

/-- A successfully encoded data row has one encoded cell per source cell. -/
theorem encodeRow_ok_length (prim : Prim) :
    ∀ (r : List Value) (cs : List EncodedField),
      encodeRow prim r = .ok cs → cs.length = r.length := by
  intro r
  induction r with
  | nil =>
    intro cs h
    simp only [encodeRow, Res.ok.injEq] at h
    subst h
    rfl
  | cons v rest ih =>
    intro cs h
    simp only [encodeRow] at h
    obtain ⟨c, hc, h⟩ := Res.bind_eq_ok h
    obtain ⟨cs', hcs, h⟩ := Res.bind_eq_ok h
    simp only [Res.ok.injEq] at h
    subst h
    simp [ih cs' hcs]

/-- If the primitive never fails, a row all of whose cells have supported
kinds encodes successfully. -/
theorem encodeRow_ok_of_supported (prim : Prim) (hp : ∀ c, prim c = none) :
    ∀ (r : List Value), r.all Value.supported = true →
      ∃ cs, encodeRow prim r = .ok cs := by
  intro r
  induction r with
  | nil => exact fun _ => ⟨[], rfl⟩
  | cons v rest ih =>
    intro h
    simp only [List.all_cons, Bool.and_eq_true] at h
    obtain ⟨hv, hrest⟩ := h
    obtain ⟨cs, hcs⟩ := ih hrest
    simp only [Value.supported, Option.isSome_iff_exists] at hv
    obtain ⟨c, hc⟩ := hv
    exact ⟨c :: cs, by simp [encodeRow, encode_cell_checked, hc, hp, Res.bind, hcs]⟩

/-- If the primitive never fails, a row containing a cell of unsupported
kind hits `unimplemented!()`. -/
theorem encodeRow_abort_of_unsupported (prim : Prim) (hp : ∀ c, prim c = none) :
    ∀ (r : List Value), (r.any fun v => !v.supported) = true →
      encodeRow prim r = .abort "unimplemented" := by
  intro r
  induction r with
  | nil => intro h; simp at h
  | cons v rest ih =>
    intro h
    simp only [List.any_cons, Bool.or_eq_true] at h
    rcases h with hv | hrest
    · have hnone : encode_cell v = none := by
        rcases hcase : encode_cell v with _ | c
        · rfl
        · rw [Bool.not_eq_true', Value.supported, hcase] at hv
          simp at hv
      simp [encodeRow, encode_cell_checked, hnone, Res.bind]
    · rcases hc : encode_cell v with _ | c
      · simp [encodeRow, encode_cell_checked, hc, Res.bind]
      · simp [encodeRow, encode_cell_checked, hc, hp, Res.bind, ih hrest]

/-- Inverting a successful `encodeRows`: each source row encoded
successfully to the corresponding data row, in order. -/
theorem encodeRows_ok_forall (prim : Prim) :
    ∀ (rows : List (List Value)) (rss : List (List EncodedField)),
      encodeRows prim rows = .ok rss →
      List.Forall₂ (fun r cs => encodeRow prim r = .ok cs) rows rss := by
  intro rows
  induction rows with
  | nil =>
    intro rss h
    simp only [encodeRows, Res.ok.injEq] at h
    subst h
    exact .nil
  | cons r rest ih =>
    intro rss h
    simp only [encodeRows] at h
    obtain ⟨cs, hcs, h⟩ := Res.bind_eq_ok h
    obtain ⟨rss', hrss, h⟩ := Res.bind_eq_ok h
    simp only [Res.ok.injEq] at h
    subst h
    exact .cons hcs (ih rss' hrss)

/-- If the primitive never fails, a row set all of whose cells have
supported kinds encodes successfully. -/
theorem encodeRows_ok_of_supported (prim : Prim) (hp : ∀ c, prim c = none) :
    ∀ (rows : List (List Value)),
      (rows.all fun r => r.all Value.supported) = true →
      ∃ rss, encodeRows prim rows = .ok rss := by
  intro rows
  induction rows with
  | nil => exact fun _ => ⟨[], rfl⟩
  | cons r rest ih =>
    intro h
    simp only [List.all_cons, Bool.and_eq_true] at h
    obtain ⟨hr, hrest⟩ := h
    obtain ⟨cs, hcs⟩ := encodeRow_ok_of_supported prim hp r hr
    obtain ⟨rss, hrss⟩ := ih hrest
    exact ⟨cs :: rss, by simp [encodeRows, hcs, hrss, Res.bind]⟩

/-- If the primitive never fails, a row set containing any cell of
unsupported kind hits `unimplemented!()`. -/
theorem encodeRows_abort_of_unsupported (prim : Prim) (hp : ∀ c, prim c = none) :
    ∀ (rows : List (List Value)),
      (rows.any fun r => r.any fun v => !v.supported) = true →
      encodeRows prim rows = .abort "unimplemented" := by
  intro rows
  induction rows with
  | nil => intro h; simp at h
  | cons r rest ih =>
    intro h
    simp only [List.any_cons, Bool.or_eq_true] at h
    rcases h with hr | hrest
    · simp [encodeRows, encodeRow_abort_of_unsupported prim hp r hr, Res.bind]
    · rcases hany : (r.any fun v => !v.supported) with _ | _
      · have hall : r.all Value.supported = true := by
          simp only [List.any_eq_false, Bool.not_eq_true', Bool.not_eq_false] at hany
          simpa [List.all_eq_true] using hany
        obtain ⟨cs, hcs⟩ := encodeRow_ok_of_supported prim hp r hall
        simp [encodeRows, hcs, Res.bind, ih hrest]
      · simp [encodeRows, encodeRow_abort_of_unsupported prim hp r hany, Res.bind]

/-- Under a never-failing primitive, every supported payload translates to
some response. -/
theorem translatePayload_ok_of_supported (prim : Prim) (hp : ∀ c, prim c = none) :
    ∀ (p : Payload), p.supported = true →
      ∃ r, translatePayload prim p = .ok r := by
  intro p hps
  cases p with
  | Select labels rows =>
    obtain ⟨rss, hrss⟩ := encodeRows_ok_of_supported prim hp rows
      (by simpa [Payload.supported] using hps)
    exact ⟨.Query (fieldInfos labels) rss, by simp [translatePayload, hrss, Res.bind]⟩
  | Insert n => exact ⟨_, rfl⟩
  | Delete n => exact ⟨_, rfl⟩
  | Update n => exact ⟨_, rfl⟩
  | Create => exact ⟨_, rfl⟩
  | AlterTable => exact ⟨_, rfl⟩
  | DropTable => exact ⟨_, rfl⟩
  | CreateIndex => exact ⟨_, rfl⟩
  | DropIndex => exact ⟨_, rfl⟩
  | Other v => simp [Payload.supported] at hps

/-- Under a never-failing primitive, a list of supported payloads
translates in order, one response per payload. -/
theorem translateAll_ok_of_supported (prim : Prim) (hp : ∀ c, prim c = none) :
    ∀ (ps : List Payload), ps.all Payload.supported = true →
      ∃ rs, translateAll prim ps = .ok rs ∧
        List.Forall₂ (fun p r => translatePayload prim p = .ok r) ps rs := by
  intro ps
  induction ps with
  | nil => exact fun _ => ⟨[], rfl, .nil⟩
  | cons p rest ih =>
    intro h
    simp only [List.all_cons, Bool.and_eq_true] at h
    obtain ⟨hpp, hrest⟩ := h
    obtain ⟨r, hrok⟩ := translatePayload_ok_of_supported prim hp p hpp
    obtain ⟨rs, hrs, hfa⟩ := ih hrest
    exact ⟨r :: rs, by simp [translateAll, hrok, hrs, Res.bind], .cons hrok hfa⟩

/-- If every payload before `p` translates successfully and `p` itself
fails with error `e`, translating the whole sequence yields exactly `e`. -/
theorem translateAll_err (prim : Prim) (e : PgWireError) :
    ∀ (ps1 : List Payload) (p : Payload) (ps2 : List Payload),
      (∀ q ∈ ps1, ∃ r, translatePayload prim q = .ok r) →
      translatePayload prim p = .err e →
      translateAll prim (ps1 ++ p :: ps2) = .err e := by
  intro ps1
  induction ps1 with
  | nil =>
    intro p ps2 _ hperr
    simp [translateAll, hperr, Res.bind]
  | cons q rest ih =>
    intro p ps2 h1 hperr
    obtain ⟨r, hr⟩ := h1 q (List.mem_cons_self q rest)
    have hrec := ih p ps2 (fun q' hq' => h1 q' (List.mem_cons_of_mem _ hq')) hperr
    simp [translateAll, hr, hrec, Res.bind]

/-- Encoding rows whose widths all equal `n` yields data rows whose widths
all equal `n`. -/
theorem encodeRows_ok_cell_lengths (prim : Prim) (n : Nat) :
    ∀ (rows : List (List Value)) (rss : List (List EncodedField)),
      encodeRows prim rows = .ok rss →
      (∀ r ∈ rows, r.length = n) →
      ∀ cs ∈ rss, cs.length = n := by
  intro rows
  induction rows with
  | nil =>
    intro rss h _
    simp only [encodeRows, Res.ok.injEq] at h
    subst h
    intro cs hcs
    simp at hcs
  | cons r rest ih =>
    intro rss h hwf
    simp only [encodeRows] at h
    obtain ⟨cs, hcs, h⟩ := Res.bind_eq_ok h
    obtain ⟨rss', hrss, h⟩ := Res.bind_eq_ok h
    simp only [Res.ok.injEq] at h
    subst h
    intro cs' hcs'
    rcases List.mem_cons.mp hcs' with hceq | hmem
    · subst hceq
      have hlen := encodeRow_ok_length prim r _ hcs
      rw [hlen]
      exact hwf r (List.mem_cons_self r rest)
    · exact ih rss' hrss (fun r' hr' => hwf r' (List.mem_cons_of_mem _ hr')) cs' hmem

/-- Claim C1: for every cell value of a supported kind appearing in a
Tabular (Select) payload, the encoder encodes that cell in text format with
exactly the wire type given by the spec's table: boolean as BOOL, 8-bit
signed as CHAR, 16-bit signed as INT2, 32-bit signed as INT4, 64-bit signed
as INT8, unsigned byte as CHAR, 64-bit float as FLOAT8, string as VARCHAR,
binary blob as BYTEA, date as DATE, time as TIME, timestamp as TIMESTAMP. -/
theorem c1_cell_wire_types (v : Value) :
    (encode_cell v).map (fun c => (c.ty, c.fmt)) =
      (specCellType v).map (fun t => (t, FieldFormat.Text)) := by
  cases v <;> rfl

/-- Claim C2: every Mutation payload yields an execution acknowledgement
whose tag is exactly "Insert", "Update", or "Delete" together with the
affected-row count, and every Schema Change payload yields an
acknowledgement whose tag is exactly "Create", "Alter Table", "Drop Table",
"Create Index", or "Drop Index" with no count attached. -/
theorem c2_execution_tags (prim : Prim) (n : Nat) :
    translatePayload prim (.Insert n) = .ok (.Execution ⟨"Insert", some n⟩) ∧
    translatePayload prim (.Update n) = .ok (.Execution ⟨"Update", some n⟩) ∧
    translatePayload prim (.Delete n) = .ok (.Execution ⟨"Delete", some n⟩) ∧
    translatePayload prim .Create = .ok (.Execution ⟨"Create", none⟩) ∧
    translatePayload prim .AlterTable = .ok (.Execution ⟨"Alter Table", none⟩) ∧
    translatePayload prim .DropTable = .ok (.Execution ⟨"Drop Table", none⟩) ∧
    translatePayload prim .CreateIndex = .ok (.Execution ⟨"Create Index", none⟩) ∧
    translatePayload prim .DropIndex = .ok (.Execution ⟨"Drop Index", none⟩) :=
  ⟨rfl, rfl, rfl, rfl, rfl, rfl, rfl, rfl⟩

/-- Claim C3: whenever the engine reports an execution failure, or the
submission channel or the per-request response channel fails, `do_query`
returns an API-level protocol error wrapping the underlying error and no
Wire Responses; neither failure kind is silently dropped. -/
theorem c3_bridge_errors (prim : Prim) (m : String) :
    do_query prim (.sendFail m) = .err (.ApiError m) ∧
    do_query prim (.recvFail m) = .err (.ApiError m) ∧
    do_query prim (.engine (.error m)) = .err (.ApiError m) :=
  ⟨rfl, rfl, rfl⟩

/-- Claim C4: for every successful submission returning a sequence of
payloads all of supported variants with supported cell kinds, `do_query`
returns exactly one Wire Response per payload, in order, the i-th response
being the translation of the i-th payload. -/
theorem c4_one_response_per_payload (prim : Prim) (ps : List Payload)
    (hprim : ∀ c, prim c = none) (hs : ps.all Payload.supported = true) :
    ∃ rs : List Response, do_query prim (.engine (.ok ps)) = .ok rs ∧
      rs.length = ps.length ∧
      List.Forall₂ (fun p r => translatePayload prim p = .ok r) ps rs := by
  obtain ⟨rs, hrs, hfa⟩ := translateAll_ok_of_supported prim hprim ps hs
  exact ⟨rs, hrs, hfa.length_eq.symm, hfa⟩

/-- Witness for C4 at a concrete three-payload sequence. -/
theorem c4_witness :
    ∃ rs : List Response,
      do_query (fun _ => none)
        (.engine (.ok [.Select ["a"] [[.I32 1]], .Insert 3, .Create])) = .ok rs ∧
      rs.length =
        ([.Select ["a"] [[.I32 1]], .Insert 3, .Create] : List Payload).length ∧
      List.Forall₂ (fun p r => translatePayload (fun _ => none) p = .ok r)
        [.Select ["a"] [[.I32 1]], .Insert 3, .Create] rs :=
  c4_one_response_per_payload (fun _ => none)
    [.Select ["a"] [[.I32 1]], .Insert 3, .Create] (fun _ => rfl) (by decide)

/-- Claim C5: a Tabular payload containing a cell whose value kind is
outside the supported table, and any Payload variant other than the nine
enumerated ones, make the encoding path abort unconditionally
(`unimplemented!()`) rather than return a reported, typed error. -/
theorem c5_unsupported_aborts (prim : Prim) (hprim : ∀ c, prim c = none)
    (labels : List String) (rows : List (List Value)) (t : String)
    (hbad : (rows.any fun r => r.any fun v => !v.supported) = true) :
    translatePayload prim (.Select labels rows) = .abort "unimplemented" ∧
    translatePayload prim (.Other t) = .abort "unimplemented" := by
  constructor
  · have habort := encodeRows_abort_of_unsupported prim hprim rows hbad
    simp [translatePayload, habort, Res.bind]
  · rfl

/-- Witness for C5 at a row containing an unsupported (engine-defined)
value kind and an unsupported payload variant. -/
theorem c5_witness :
    translatePayload (fun _ => none)
      (.Select ["a"] [[.Other "Null"]]) = .abort "unimplemented" ∧
    translatePayload (fun _ => none)
      (.Other "ShowColumns") = .abort "unimplemented" :=
  c5_unsupported_aborts (fun _ => none) (fun _ => rfl)
    ["a"] [[.Other "Null"]] "ShowColumns" (by decide)

/-- Claim C6: for every Tabular payload the encoder emits (its rows
matching its labels, as the data model requires), the resulting row-set
response has exactly as many cells in every row as it has column
descriptors. -/
theorem c6_column_row_width (prim : Prim) (labels : List String)
    (rows : List (List Value)) (fields : List FieldInfo)
    (rss : List (List EncodedField))
    (hwf : ∀ r ∈ rows, r.length = labels.length)
    (h : translatePayload prim (.Select labels rows) = .ok (.Query fields rss)) :
    fields.length = labels.length ∧ ∀ cs ∈ rss, cs.length = fields.length := by
  simp only [translatePayload] at h
  obtain ⟨rss', hrss, hok⟩ := Res.bind_eq_ok h
  simp only [Res.ok.injEq, Response.Query.injEq] at hok
  obtain ⟨hf, hr⟩ := hok
  subst hf
  subst hr
  refine ⟨by simp [fieldInfos], ?_⟩
  intro cs hcs
  have hlen : (fieldInfos labels).length = labels.length := by simp [fieldInfos]
  rw [hlen]
  exact encodeRows_ok_cell_lengths prim labels.length rows rss' hrss hwf cs hcs

/-- Witness for C6 at a concrete one-column, one-row payload. -/
theorem c6_witness :
    ([⟨"a", none, none, .UNKNOWN, .Text⟩] : List FieldInfo).length =
      (["a"] : List String).length ∧
    ∀ cs ∈ ([[⟨.i32 1, .INT4, .Text⟩]] : List (List EncodedField)),
      cs.length = ([⟨"a", none, none, .UNKNOWN, .Text⟩] : List FieldInfo).length :=
  c6_column_row_width (fun _ => none) ["a"] [[.I32 1]]
    [⟨"a", none, none, .UNKNOWN, .Text⟩] [[⟨.i32 1, .INT4, .Text⟩]]
    (by decide) rfl

/-- Claim C7: the row-set response emitted for a Tabular payload with label
sequence L carries exactly one column descriptor per element of L, in
order, each using the label as its name, the unknown type-oid placeholder,
and text format — regardless of the cells in the rows. -/
theorem c7_column_descriptors (prim : Prim) (labels : List String)
    (rows : List (List Value)) (resp : Response)
    (h : translatePayload prim (.Select labels rows) = .ok resp) :
    ∃ rss, resp = .Query
      (labels.map fun l => ⟨l, none, none, PgType.UNKNOWN, FieldFormat.Text⟩)
      rss := by
  simp only [translatePayload] at h
  obtain ⟨rss', hrss, hok⟩ := Res.bind_eq_ok h
  simp only [Res.ok.injEq] at hok
  exact ⟨rss', hok.symm⟩

/-- Witness for C7 at a concrete two-label payload with no rows. -/
theorem c7_witness :
    ∃ rss,
      (Response.Query [⟨"x", none, none, .UNKNOWN, .Text⟩,
          ⟨"y", none, none, .UNKNOWN, .Text⟩] [] : Response) =
        .Query ((["x", "y"] : List String).map fun l =>
          ⟨l, none, none, PgType.UNKNOWN, FieldFormat.Text⟩) rss :=
  c7_column_descriptors (fun _ => none) ["x", "y"] [] _ rfl

/-- Claim C8: every unsigned-byte cell value v (0 ≤ v ≤ 255) is encoded as
the 8-bit two's-complement reinterpretation of v — the signed value v when
v < 128, and v − 256 when v ≥ 128 — with wire type CHAR (in text format). -/
theorem c8_u8_reinterpret (v : Nat) (h : v ≤ 255) :
    encode_cell (.U8 v) =
      some ⟨.i8 (if v < 128 then (v : Int) else (v : Int) - 256), .CHAR, .Text⟩ := by
  have hcast : u8_as_i8 v = if v < 128 then (v : Int) else (v : Int) - 256 := by
    rw [u8_as_i8]
    split
    · omega
    · omega
  simp [encode_cell, hcast]

/-- Witness for C8 at v = 200, which reinterprets to −56. -/
theorem c8_witness :
    200 ≤ 255 ∧
    encode_cell (.U8 200) =
      some ⟨.i8 (if 200 < 128 then ((200 : Nat) : Int) else ((200 : Nat) : Int) - 256),
        .CHAR, .Text⟩ :=
  ⟨by decide, c8_u8_reinterpret 200 (by decide)⟩

/-- Claim C9: translation is all-or-nothing at the query-cycle level — if
encoding any cell of any payload fails with an error, `do_query` returns
that single error and delivers no Wire Responses, including for payloads
earlier in the sequence that already translated successfully. -/
theorem c9_all_or_nothing (prim : Prim) (ps1 : List Payload) (p : Payload)
    (ps2 : List Payload) (e : PgWireError)
    (h1 : ∀ q ∈ ps1, ∃ r, translatePayload prim q = .ok r)
    (h2 : translatePayload prim p = .err e) :
    do_query prim (.engine (.ok (ps1 ++ p :: ps2))) = .err e :=
  translateAll_err prim e ps1 p ps2 h1 h2

/-- Witness for C9: the primitive fails on the second payload's only cell;
the first payload (already translated) and the third are discarded and the
single error is returned. -/
theorem c9_witness :
    do_query (fun _ => some (.ApiError "boom"))
      (.engine (.ok ([Payload.Insert 1] ++
        Payload.Select ["a"] [[.Bool true]] :: [Payload.Create]))) =
      .err (.ApiError "boom") :=
  c9_all_or_nothing (fun _ => some (.ApiError "boom"))
    [Payload.Insert 1] (Payload.Select ["a"] [[.Bool true]]) [Payload.Create]
    (.ApiError "boom")
    (fun q hq => by
      rw [List.mem_singleton] at hq
      subst hq
      exact ⟨_, rfl⟩)
    rfl

end Gluesql
